import Mathlib

/-!
Shallow embedding of the SideCar `TrackMaintainer` algorithm
(src/Algorithms/TrackMaintainer/TrackMaintainer.cc) and of the
identity-based `Mutex` equality operators (src/Threading/Threading.h),
together with theorems settling the specification claims about them.

Times (`double` in the source) are modelled as rationals; the source
performs only addition, subtraction, multiplication and order comparison
on them, so `ℚ` is a faithful carrier. The `std::map<int, TrackMsgVector>`
track database is modelled as an association list sorted by key, which is
exactly the iteration/insertion semantics of `std::map` (unique keys,
in-order traversal, `erase(it++)` leaving other entries untouched).
-/

set_option autoImplicit false

namespace SideCar

/-- Modelled from the spec: `Messages::Track` flag values used by
TrackMaintainer.cc (the `Messages/Track.h` header is not part of the
sources; the flag constants `kNew`, `kCorrected`, `kPromoted`,
`kDropping`, `kNeedsPrediction`, `kNeedsCorrection`, `kPredicted` are
those the .cc file names). -/
inductive Flag where
  | kNew
  | kCorrected
  | kPromoted
  | kDropping
  | kNeedsPrediction
  | kNeedsCorrection
  | kPredicted
  deriving DecidableEq, Repr

/-- Modelled from the spec: the entity lifecycle state stored in a track
message (`Track::kTentative` / `Track::kConfirmed` in TrackMaintainer.cc). -/
inductive TrackType where
  | kTentative
  | kConfirmed
  deriving DecidableEq, Repr

/-- Modelled from the spec: a `Messages::Track` record as used by
TrackMaintainer.cc — a typed, timestamped record with a stable key
(`getTrackNumber`), an event time (`getExtractionTime`), report flags
(`getFlags`/`setFlags`) and a lifecycle state (`getType`). -/
structure Track where
  trackNumber : Nat
  extractionTime : ℚ
  flags : Flag
  type : TrackType
  deriving DecidableEq, Repr

instance : Inhabited Track :=
  ⟨⟨0, 0, Flag.kNew, TrackType.kTentative⟩⟩

namespace Track

/-- Modelled from the spec: `Track::Make(producer, track)` duplicates the
message contents for a new producer; the copy carries the same key, event
time, flags and state as the original. -/
def Make (t : Track) : Track := t

/-- Modelled from the spec: `Track::setFlags` overwrites the report-flag
field of the message it is called on, leaving the rest unchanged. -/
def setFlags (t : Track) (f : Flag) : Track := { t with flags := f }

end Track

/-- Alias for the per-track `std::vector<Track::Ref>` history
(`TrackMsgVector` in the source), append-only, most recent last. -/
abbrev TrackMsgVector := List Track

/-- Embedding of `tracks.back()`: the most recent message of a history.
The source only calls it on non-empty vectors (entries are created with
their first message); on `[]` we return the default record. -/
def back (tracks : TrackMsgVector) : Track := tracks.getLastD default

/-- Alias for the `std::map<int, TrackMsgVector>` track database
(`Mapping` in the source), as an association list sorted strictly by
key. -/
abbrev Mapping := List (Nat × TrackMsgVector)

/-- The lookup/insert/append step of `TrackMaintainer::updateDatabase`:
find the entry for `key` (creating it, in key order, the way `std::map`
stores it) and `push_back` the message onto its vector. -/
def dbAdd (key : Nat) (msg : Track) : Mapping → Mapping
  | [] => [(key, [msg])]
  | (k, v) :: rest =>
    if key = k then (k, v ++ [msg]) :: rest
    else if key < k then (key, [msg]) :: (k, v) :: rest
    else (k, v) :: dbAdd key msg rest

/-- The mutable state of a `TrackMaintainer`: the track database and the
virtual-clock offset `epoch_` between message time and wall time. -/
structure TrackMaintainer where
  trackDatabase : Mapping
  epoch : ℚ
  deriving DecidableEq, Repr

namespace TrackMaintainer

/-- Embedding of `TrackMaintainer::updateDatabase(msg)` at wall-clock
time `now`: append `msg` to its track's history (creating the entry if
absent) and recompute `epoch_ = now - msg->getExtractionTime()`. -/
def updateDatabase (s : TrackMaintainer) (msg : Track) (now : ℚ) : TrackMaintainer :=
  { trackDatabase := dbAdd msg.trackNumber msg s.trackDatabase
    epoch := now - msg.extractionTime }

/-- Embedding of `TrackMaintainer::processInput(msg)` at wall-clock time
`now`: fold the message into the database only when its flags are `kNew`
or `kCorrected`; always return `true`. -/
def processInput (s : TrackMaintainer) (msg : Track) (now : ℚ) : TrackMaintainer × Bool :=
  if msg.flags = Flag.kNew ∨ msg.flags = Flag.kCorrected then
    (updateDatabase s msg now, true)
  else
    (s, true)

/-- Embedding of `TrackMaintainer::reset()`: `trackDatabase_.clear()`
(the offset `epoch_` is not touched). -/
def reset (s : TrackMaintainer) : TrackMaintainer :=
  { s with trackDatabase := [] }

/-- One iteration of the `checkDatabase` loop body on a single database
entry: build the (at most one) outgoing report — a promotion report for a
tentative track whose history has reached `hitsBeforePromote`, overwritten
by a drop report when the offset-corrected elapsed time exceeds
`dropLimit` — and decide whether the entry survives (`some entry`) or is
erased (`none`). -/
def checkEntry (hitsBeforePromote : Nat) (dropLimit epoch now : ℚ)
    (entry : Nat × TrackMsgVector) : Option (Nat × TrackMsgVector) × Option Track :=
  let tracks := entry.2
  let track := back tracks
  let report : Option Track :=
    if track.type = TrackType.kTentative ∧ hitsBeforePromote ≤ tracks.length then
      some (Track.setFlags (Track.Make track) Flag.kPromoted)
    else
      none
  if dropLimit < now - (epoch + track.extractionTime) then
    (none, some (Track.setFlags (Track.Make track) Flag.kDropping))
  else
    (some entry, report)

/-- The `while (it != trackDatabase_.end())` loop of `checkDatabase`:
each entry is visited once in iteration order; `erase(it++)` removes only
the current entry. Returns the surviving database and the reports sent,
in order. -/
def checkLoop (hitsBeforePromote : Nat) (dropLimit epoch now : ℚ) :
    Mapping → Mapping × List Track
  | [] => ([], [])
  | entry :: rest =>
    let r := checkEntry hitsBeforePromote dropLimit epoch now entry
    let rest' := checkLoop hitsBeforePromote dropLimit epoch now rest
    (r.1.toList ++ rest'.1, r.2.toList ++ rest'.2)

/-- Embedding of `TrackMaintainer::checkDatabase()` run at wall-clock
time `now` with the live configuration values `hitsBeforePromote_`,
`missesBeforeDrop_` and `RadarConfig::GetRotationDuration()`: compute
`dropLimit = rotationDuration * missesBeforeDrop` once, then sweep the
database. Returns the new state and the reports sent. -/
def checkDatabase (hitsBeforePromote missesBeforeDrop : Nat) (rotationDuration : ℚ)
    (now : ℚ) (s : TrackMaintainer) : TrackMaintainer × List Track :=
  let dropLimit := rotationDuration * (missesBeforeDrop : ℚ)
  let r := checkLoop hitsBeforePromote dropLimit s.epoch now s.trackDatabase
  ({ trackDatabase := r.1, epoch := s.epoch }, r.2)

end TrackMaintainer

/-- Well-formedness of a single database entry, as established by
`updateDatabase`: the history is non-empty (entries are created with
their first message) and every message in it carries the entry's key
(messages are filed under `msg->getTrackNumber()`). -/
def WFEntry (e : Nat × TrackMsgVector) : Prop :=
  e.2 ≠ [] ∧ ∀ t ∈ e.2, t.trackNumber = e.1

/-- Well-formedness of the track database: keys are strictly sorted
(the `std::map` representation) and every entry is well-formed. -/
def WFdb (db : Mapping) : Prop :=
  List.Sorted (· < ·) (db.map Prod.fst) ∧ ∀ e ∈ db, WFEntry e

/-- One externally-triggered operation on a `TrackMaintainer`: either an
incoming track message (`processInput` at some wall-clock time) or one
timer-driven maintenance cycle (`checkDatabase` with the live
configuration at some wall-clock time). -/
inductive Op where
  | obs (msg : Track) (now : ℚ)
  | cycle (hitsBeforePromote missesBeforeDrop : Nat) (rotationDuration now : ℚ)
  deriving Repr

namespace TrackMaintainer

/-- Execute one operation, returning the new state and the reports sent. -/
def step (s : TrackMaintainer) : Op → TrackMaintainer × List Track
  | Op.obs msg now => ((processInput s msg now).1, [])
  | Op.cycle hits misses rot now => checkDatabase hits misses rot now s

/-- Execute a sequence of operations, collecting all reports sent. -/
def run (s : TrackMaintainer) : List Op → TrackMaintainer × List Track
  | [] => (s, [])
  | op :: ops =>
    let r := step s op
    let rest := run r.1 ops
    (rest.1, r.2 ++ rest.2)

end TrackMaintainer

end SideCar

namespace Threading

/-- Embedding of a `Threading::Mutex` object as far as its comparison
operators are concerned: `id` models the object's address (distinct live
objects have distinct addresses; the class prohibits copying), `kind` the
`pthread_mutexattr_settype` value passed at construction. -/
structure Mutex where
  id : Nat
  kind : Int
  deriving DecidableEq, Repr

namespace Mutex

/-- Embedding of `Mutex::operator==(rhs)`: `return this == &rhs;` —
comparison of the objects' addresses. -/
def eqOp (a b : Mutex) : Bool := decide (a.id = b.id)

/-- Embedding of `Mutex::operator!=(rhs)`: `return this != &rhs;` —
comparison of the objects' addresses. -/
def neOp (a b : Mutex) : Bool := decide (¬ a.id = b.id)

end Mutex

end Threading

open SideCar SideCar.TrackMaintainer Threading

/-- A tentative observation of track 42 at event time `i`. -/
def tentativeMsg (i : ℚ) : Track :=
  { trackNumber := 42, extractionTime := i, flags := Flag.kNew, type := TrackType.kTentative }

/-- Engine state after track 42 was observed three times while tentative,
with virtual-clock offset 5. -/
def promoState : TrackMaintainer :=
  { trackDatabase := [(42, [tentativeMsg 0, tentativeMsg 1, tentativeMsg 2])], epoch := 5 }

/-- A confirmed observation of track 7 at event time 10. -/
def confirmedMsg7 : Track :=
  { trackNumber := 7, extractionTime := 10, flags := Flag.kNew, type := TrackType.kConfirmed }

/-- Engine state holding only track 7, with virtual-clock offset 0. -/
def dropState : TrackMaintainer :=
  { trackDatabase := [(7, [confirmedMsg7])], epoch := 0 }

/-- A message whose flags are neither `kNew` nor `kCorrected`. -/
def predictedMsg : Track :=
  { trackNumber := 7, extractionTime := 3, flags := Flag.kPredicted, type := TrackType.kTentative }

/-! ## Supporting lemmas -/

namespace SideCar

namespace Track

@[simp] theorem Make_def (t : Track) : Make t = t := rfl

@[simp] theorem setFlags_flags (t : Track) (f : Flag) : (setFlags t f).flags = f := rfl

@[simp] theorem setFlags_trackNumber (t : Track) (f : Flag) :
    (setFlags t f).trackNumber = t.trackNumber := rfl

@[simp] theorem setFlags_extractionTime (t : Track) (f : Flag) :
    (setFlags t f).extractionTime = t.extractionTime := rfl

@[simp] theorem setFlags_type (t : Track) (f : Flag) : (setFlags t f).type = t.type := rfl

end Track

theorem back_mem {tracks : TrackMsgVector} (h : tracks ≠ []) : back tracks ∈ tracks := by
  unfold back
  rw [List.getLastD_eq_getLast? , List.getLast?_eq_getLast _ h]
  simp [List.getLast_mem]

theorem back_trackNumber {e : Nat × TrackMsgVector} (h : WFEntry e) :
    (back e.2).trackNumber = e.1 :=
  h.2 _ (back_mem h.1)

theorem mem_keys_dbAdd (key : Nat) (msg : Track) (db : Mapping) (x : Nat) :
    x ∈ (dbAdd key msg db).map Prod.fst ↔ x = key ∨ x ∈ db.map Prod.fst := by
  induction db with
  | nil => simp [dbAdd]
  | cons e rest ih =>
    obtain ⟨k, v⟩ := e
    simp only [dbAdd]
    split_ifs with h1 h2
    · simp_all
    · simp_all
    · simp_all
      tauto

theorem dbAdd_sorted (key : Nat) (msg : Track) (db : Mapping)
    (h : List.Sorted (· < ·) (db.map Prod.fst)) :
    List.Sorted (· < ·) ((dbAdd key msg db).map Prod.fst) := by
  induction db with
  | nil => simp [dbAdd]
  | cons e rest ih =>
    obtain ⟨k, v⟩ := e
    simp only [List.map_cons, List.sorted_cons] at h
    simp only [dbAdd]
    split_ifs with h1 h2
    · simp only [List.map_cons, List.sorted_cons]
      exact ⟨h.1, h.2⟩
    · simp only [List.map_cons, List.sorted_cons]
      refine ⟨?_, h.1, h.2⟩
      intro b hb
      rcases List.mem_cons.mp hb with rfl | hb2
      · exact h2
      · exact lt_trans h2 (h.1 b hb2)
    · simp only [List.map_cons, List.sorted_cons]
      constructor
      · intro b hb
        rcases (mem_keys_dbAdd key msg rest b).mp hb with rfl | hb2
        · omega
        · exact h.1 b hb2
      · exact ih h.2

theorem dbAdd_WFEntry (key : Nat) (msg : Track) (hmsg : msg.trackNumber = key) (db : Mapping)
    (h : ∀ e ∈ db, WFEntry e) : ∀ e ∈ dbAdd key msg db, WFEntry e := by
  induction db with
  | nil =>
    intro e he
    simp only [dbAdd, List.mem_singleton] at he
    subst he
    exact ⟨by simp, by simp [hmsg]⟩
  | cons hd rest ih =>
    obtain ⟨k, v⟩ := hd
    intro e he
    simp only [dbAdd] at he
    split_ifs at he with h1 h2
    · rcases List.mem_cons.mp he with rfl | he2
      · have hw := h (k, v) (List.mem_cons_self _ _)
        refine ⟨by simp, ?_⟩
        intro t ht
        rcases List.mem_append.mp ht with ht | ht
        · exact hw.2 t ht
        · rw [List.mem_singleton] at ht
          subst ht
          rw [hmsg, h1]
      · exact h e (List.mem_cons_of_mem _ he2)
    · rcases List.mem_cons.mp he with rfl | he2
      · exact ⟨by simp, by simp [hmsg]⟩
      · exact h e he2
    · rcases List.mem_cons.mp he with rfl | he2
      · exact h (k, v) (List.mem_cons_self _ _)
      · exact ih (fun x hx => h x (List.mem_cons_of_mem _ hx)) e he2

namespace TrackMaintainer

theorem checkEntry_fst (hits : Nat) (dl ep now : ℚ) (e : Nat × TrackMsgVector) :
    (checkEntry hits dl ep now e).1
      = if dl < now - (ep + (back e.2).extractionTime) then none else some e := by
  unfold checkEntry
  by_cases h : dl < now - (ep + (back e.2).extractionTime) <;> simp [h]

theorem checkEntry_snd_of_drop (hits : Nat) (dl ep now : ℚ) (e : Nat × TrackMsgVector)
    (h : dl < now - (ep + (back e.2).extractionTime)) :
    (checkEntry hits dl ep now e).2
      = some (Track.setFlags (Track.Make (back e.2)) Flag.kDropping) := by
  unfold checkEntry
  simp [h]

theorem checkEntry_snd_of_not_drop (hits : Nat) (dl ep now : ℚ) (e : Nat × TrackMsgVector)
    (h : ¬ dl < now - (ep + (back e.2).extractionTime)) :
    (checkEntry hits dl ep now e).2
      = if (back e.2).type = TrackType.kTentative ∧ hits ≤ e.2.length then
          some (Track.setFlags (Track.Make (back e.2)) Flag.kPromoted)
        else none := by
  unfold checkEntry
  simp [h]

theorem checkEntry_report_shape (hits : Nat) (dl ep now : ℚ) (e : Nat × TrackMsgVector)
    (r : Track) (h : (checkEntry hits dl ep now e).2 = some r) :
    r.trackNumber = (back e.2).trackNumber
      ∧ (r.flags = Flag.kPromoted ∨ r.flags = Flag.kDropping) := by
  by_cases hd : dl < now - (ep + (back e.2).extractionTime)
  · rw [checkEntry_snd_of_drop hits dl ep now e hd] at h
    cases h
    simp
  · rw [checkEntry_snd_of_not_drop hits dl ep now e hd] at h
    split at h
    · cases h
      simp
    · cases h

theorem checkLoop_fst (hits : Nat) (dl ep now : ℚ) (db : Mapping) :
    (checkLoop hits dl ep now db).1
      = db.filter (fun e => decide ¬ (dl < now - (ep + (back e.2).extractionTime))) := by
  induction db with
  | nil => rfl
  | cons e rest ih =>
    simp only [checkLoop, List.filter_cons, checkEntry_fst]
    by_cases h : dl < now - (ep + (back e.2).extractionTime) <;>
      simp [h, ih]

theorem checkLoop_snd (hits : Nat) (dl ep now : ℚ) (db : Mapping) :
    (checkLoop hits dl ep now db).2
      = db.filterMap (fun e => (checkEntry hits dl ep now e).2) := by
  induction db with
  | nil => rfl
  | cons e rest ih =>
    simp only [checkLoop, List.filterMap_cons]
    cases h : (checkEntry hits dl ep now e).2 <;> simp [h, ih]

theorem eq_of_mem_of_nodup_keys {db : Mapping} (hn : (db.map Prod.fst).Nodup)
    {k : Nat} {v w : TrackMsgVector} (hv : (k, v) ∈ db) (hw : (k, w) ∈ db) : v = w := by
  induction db with
  | nil => cases hv
  | cons e rest ih =>
    obtain ⟨ek, ev⟩ := e
    simp only [List.map_cons, List.nodup_cons] at hn
    rcases List.mem_cons.mp hv with hv1 | hv1 <;>
      rcases List.mem_cons.mp hw with hw1 | hw1
    · exact congrArg Prod.snd (hv1.trans hw1.symm)
    · injection hv1 with h1 h2
      subst h1
      exact absurd (List.mem_map.mpr ⟨(k, w), hw1, rfl⟩) hn.1
    · injection hw1 with h1 h2
      subst h1
      exact absurd (List.mem_map.mpr ⟨(k, v), hv1, rfl⟩) hn.1
    · exact ih hn.2 hv1 hw1

/-- Preservation of database well-formedness by `updateDatabase`: the
message is filed under its own track number, histories stay non-empty,
and the key order of the `std::map` is maintained. -/
theorem updateDatabase_WFdb (s : TrackMaintainer) (msg : Track) (now : ℚ)
    (h : WFdb s.trackDatabase) : WFdb (updateDatabase s msg now).trackDatabase :=
  ⟨dbAdd_sorted _ _ _ h.1, dbAdd_WFEntry _ _ rfl _ h.2⟩

/-- Preservation of database well-formedness by `processInput`. -/
theorem processInput_WFdb (s : TrackMaintainer) (msg : Track) (now : ℚ)
    (h : WFdb s.trackDatabase) : WFdb (processInput s msg now).1.trackDatabase := by
  unfold processInput
  split
  · exact updateDatabase_WFdb s msg now h
  · exact h

/-- Preservation of database well-formedness by `checkDatabase`: the
surviving entries are a sub-sequence of the original ones, untouched. -/
theorem checkDatabase_WFdb (hits misses : Nat) (rot now : ℚ) (s : TrackMaintainer)
    (h : WFdb s.trackDatabase) :
    WFdb (checkDatabase hits misses rot now s).1.trackDatabase := by
  have hsub : (checkDatabase hits misses rot now s).1.trackDatabase.Sublist s.trackDatabase := by
    simp only [checkDatabase, checkLoop_fst]
    exact List.filter_sublist _
  constructor
  · exact h.1.sublist (hsub.map Prod.fst)
  · exact fun e he => h.2 e (hsub.mem he)

theorem checkDatabase_congr (hits misses : Nat) (rot now : ℚ) {s₁ s₂ : TrackMaintainer}
    (hdb : s₁.trackDatabase = s₂.trackDatabase) (hep : s₁.epoch = s₂.epoch) :
    checkDatabase hits misses rot now s₁ = checkDatabase hits misses rot now s₂ := by
  unfold checkDatabase
  rw [hdb, hep]

/-- The stale `epoch_` value is observationally inert while the database
is empty: one step from two states with the same database, whose offsets
agree whenever the database is non-empty, produces the same reports, the
same database, and re-establishes the same agreement. -/
theorem step_epoch_independent (op : Op) (s₁ s₂ : TrackMaintainer)
    (hdb : s₁.trackDatabase = s₂.trackDatabase)
    (hep : s₁.trackDatabase ≠ [] → s₁.epoch = s₂.epoch) :
    (step s₁ op).2 = (step s₂ op).2
      ∧ (step s₁ op).1.trackDatabase = (step s₂ op).1.trackDatabase
      ∧ ((step s₁ op).1.trackDatabase ≠ [] → (step s₁ op).1.epoch = (step s₂ op).1.epoch) := by
  cases op with
  | obs msg now =>
    by_cases hacc : msg.flags = Flag.kNew ∨ msg.flags = Flag.kCorrected
    · have e1 : (processInput s₁ msg now).1 = updateDatabase s₁ msg now := by
        simp [processInput, hacc]
      have e2 : (processInput s₂ msg now).1 = updateDatabase s₂ msg now := by
        simp [processInput, hacc]
      refine ⟨rfl, ?_, ?_⟩
      · simp [step, e1, e2, updateDatabase, hdb]
      · intro _
        simp [step, e1, e2, updateDatabase]
    · have e1 : (processInput s₁ msg now).1 = s₁ := by simp [processInput, hacc]
      have e2 : (processInput s₂ msg now).1 = s₂ := by simp [processInput, hacc]
      exact ⟨rfl, by simp [step, e1, e2, hdb], by simpa [step, e1, e2] using hep⟩
  | cycle hits misses rot now =>
    by_cases hempty : s₁.trackDatabase = []
    · have hempty2 : s₂.trackDatabase = [] := by rw [← hdb]; exact hempty
      have c1 : checkDatabase hits misses rot now s₁
          = ({ trackDatabase := [], epoch := s₁.epoch }, []) := by
        simp [checkDatabase, hempty, checkLoop]
      have c2 : checkDatabase hits misses rot now s₂
          = ({ trackDatabase := [], epoch := s₂.epoch }, []) := by
        simp [checkDatabase, hempty2, checkLoop]
      refine ⟨?_, ?_, ?_⟩ <;> simp [step, c1, c2]
    · have hcong := checkDatabase_congr hits misses rot now hdb (hep hempty)
      refine ⟨?_, ?_, ?_⟩ <;> simp [step, hcong]

/-- Trace-level consequence: two states with the same database, whose
offsets agree whenever the database is non-empty, are indistinguishable
under any sequence of operations. -/
theorem run_epoch_independent : ∀ (ops : List Op) (s₁ s₂ : TrackMaintainer),
    s₁.trackDatabase = s₂.trackDatabase →
    (s₁.trackDatabase ≠ [] → s₁.epoch = s₂.epoch) →
    (run s₁ ops).2 = (run s₂ ops).2
      ∧ (run s₁ ops).1.trackDatabase = (run s₂ ops).1.trackDatabase := by
  intro ops
  induction ops with
  | nil => exact fun s₁ s₂ hdb _ => ⟨rfl, hdb⟩
  | cons op rest ih =>
    intro s₁ s₂ hdb hep
    obtain ⟨ho, hd, he⟩ := step_epoch_independent op s₁ s₂ hdb hep
    obtain ⟨ho2, hd2⟩ := ih (step s₁ op).1 (step s₂ op).1 hd he
    constructor
    · show (step s₁ op).2 ++ (run (step s₁ op).1 rest).2
        = (step s₂ op).2 ++ (run (step s₂ op).1 rest).2
      rw [ho, ho2]
    · show (run (step s₁ op).1 rest).1.trackDatabase
        = (run (step s₂ op).1 rest).1.trackDatabase
      exact hd2

theorem checkDatabase_fst_trackDatabase (hits misses : Nat) (rot now : ℚ)
    (s : TrackMaintainer) :
    (checkDatabase hits misses rot now s).1.trackDatabase
      = (checkLoop hits (rot * (misses : ℚ)) s.epoch now s.trackDatabase).1 := rfl

theorem checkDatabase_snd (hits misses : Nat) (rot now : ℚ) (s : TrackMaintainer) :
    (checkDatabase hits misses rot now s).2
      = (checkLoop hits (rot * (misses : ℚ)) s.epoch now s.trackDatabase).2 := rfl

theorem checkDatabase_fst_epoch (hits misses : Nat) (rot now : ℚ) (s : TrackMaintainer) :
    (checkDatabase hits misses rot now s).1.epoch = s.epoch := rfl

/-- Any report sent during a sweep carries the key of one of the entries
present when the sweep started. -/
theorem report_key_mem (hits : Nat) (dl ep now : ℚ) {db : Mapping}
    (hent : ∀ e ∈ db, WFEntry e) {t : Track}
    (ht : t ∈ (checkLoop hits dl ep now db).2) :
    t.trackNumber ∈ db.map Prod.fst := by
  rw [checkLoop_snd] at ht
  obtain ⟨e, he, hfe⟩ := List.mem_filterMap.mp ht
  have hshape := checkEntry_report_shape hits dl ep now e t hfe
  rw [hshape.1, back_trackNumber (hent e he)]
  exact List.mem_map.mpr ⟨e, he, rfl⟩

/-- In a sweep of a well-formed database, the reports carrying the key of
an entry whose offset-corrected age exceeds the drop limit are exactly
one dropping report, built from the entry's latest message. -/
theorem checkLoop_filter_key (hits : Nat) (dl ep now : ℚ) :
    ∀ (db : Mapping), WFdb db → ∀ (k : Nat) (tracks : TrackMsgVector),
    (k, tracks) ∈ db →
    dl < now - (ep + (back tracks).extractionTime) →
    ((checkLoop hits dl ep now db).2).filter (fun t => t.trackNumber == k)
      = [Track.setFlags (Track.Make (back tracks)) Flag.kDropping] := by
  intro db
  induction db with
  | nil =>
    intro _ k tracks hmem
    cases hmem
  | cons e rest ih =>
    intro hwf k tracks hmem hd
    have hsorted := hwf.1
    simp only [List.map_cons, List.sorted_cons] at hsorted
    have hwfrest : WFdb rest :=
      ⟨hsorted.2, fun x hx => hwf.2 x (List.mem_cons_of_mem _ hx)⟩
    rcases List.mem_cons.mp hmem with heq | hmem2
    · subst heq
      simp only [checkLoop]
      rw [checkEntry_snd_of_drop hits dl ep now _ hd]
      have hkey : (Track.setFlags (Track.Make (back tracks)) Flag.kDropping).trackNumber = k :=
        back_trackNumber (hwf.2 (k, tracks) (List.mem_cons_self _ _))
      have hknot : ∀ t ∈ (checkLoop hits dl ep now rest).2, ¬ t.trackNumber = k := by
        intro t htr hkt
        have hmem' := report_key_mem hits dl ep now hwfrest.2 htr
        rw [hkt] at hmem'
        exact lt_irrefl k (hsorted.1 k hmem')
      have hnil : List.filter (fun t => t.trackNumber == k)
          (checkLoop hits dl ep now rest).2 = [] :=
        List.filter_eq_nil_iff.mpr (fun t htr => by simpa using hknot t htr)
      have hkey' : (back tracks).trackNumber = k := by simpa using hkey
      rw [Option.toList_some, List.filter_append, hnil]
      simp [hkey']
    · simp only [checkLoop]
      rw [List.filter_append, ih hwfrest k tracks hmem2 hd]
      have hek : k ∈ rest.map Prod.fst :=
        List.mem_map.mpr ⟨(k, tracks), hmem2, rfl⟩
      have hfilter : ((checkEntry hits dl ep now e).2.toList).filter
          (fun t => t.trackNumber == k) = [] := by
        cases hre : (checkEntry hits dl ep now e).2 with
        | none => rfl
        | some r =>
          have hshape := checkEntry_report_shape hits dl ep now e r hre
          have hrk : r.trackNumber = e.1 :=
            hshape.1.trans (back_trackNumber (hwf.2 e (List.mem_cons_self _ _)))
          have hne : ¬ r.trackNumber = k := by
            have hlt := hsorted.1 k hek
            rw [hrk]
            intro hcontra
            rw [hcontra] at hlt
            exact lt_irrefl k hlt
          simp [hne]
      rw [hfilter, List.nil_append]

/-- A dropped entry's key is gone from the surviving database. -/
theorem not_mem_keys_after_drop (hits : Nat) (dl ep now : ℚ) {db : Mapping}
    (hnodup : (db.map Prod.fst).Nodup) {k : Nat} {tracks : TrackMsgVector}
    (hmem : (k, tracks) ∈ db)
    (hd : dl < now - (ep + (back tracks).extractionTime)) :
    k ∉ (checkLoop hits dl ep now db).1.map Prod.fst := by
  rw [checkLoop_fst]
  intro hk
  obtain ⟨e, he, hfst⟩ := List.mem_map.mp hk
  have he' := List.mem_filter.mp he
  obtain ⟨ek, ev⟩ := e
  simp only at hfst
  subst hfst
  have hev : ev = tracks := eq_of_mem_of_nodup_keys hnodup he'.1 hmem
  subst hev
  have hnd := he'.2
  simp only [decide_eq_true_eq] at hnd
  exact hnd hd

/-- An entry whose offset-corrected age does not exceed the drop limit
survives the sweep unchanged. -/
theorem mem_after_not_drop (hits : Nat) (dl ep now : ℚ) {db : Mapping}
    {k : Nat} {tracks : TrackMsgVector} (hmem : (k, tracks) ∈ db)
    (hnd : ¬ dl < now - (ep + (back tracks).extractionTime)) :
    (k, tracks) ∈ (checkLoop hits dl ep now db).1 := by
  rw [checkLoop_fst]
  exact List.mem_filter.mpr ⟨hmem, by simpa using hnd⟩

end TrackMaintainer

end SideCar

/-! ## The claims -/

/-- C1: the claim says a maintenance cycle on a tentative entity whose
observation count has reached the threshold emits exactly one promoted
report for its key AND that the stored state becomes confirmed. The code
emits the report but builds it on a copy and never writes the promotion
back: with threshold 3 and track 42 observed three times while tentative
(no eviction pending), the cycle reports `(42, kPromoted)` exactly once
while the stored entry's state remains `kTentative`. -/
theorem C1_promoted_report_but_stored_state_not_confirmed :
    ((checkDatabase 3 2 10 6 promoState).2.map fun t => (t.trackNumber, t.flags))
        = [(42, Flag.kPromoted)]
      ∧ ((checkDatabase 3 2 10 6 promoState).1.trackDatabase.map fun e =>
            (e.1, (back e.2).type))
        = [(42, TrackType.kTentative)] := by
  constructor <;>
    norm_num [promoState, tentativeMsg, checkDatabase, checkLoop, checkEntry, back,
      Track.Make, Track.setFlags, List.getLastD]

/-- C2: the claim says a second `checkDatabase` call with no intervening
`processInput` emits no reports. Because a promotion is never recorded in
the stored entry, the second cycle re-emits the same promoted report:
from `promoState`, the cycle at time 6 and then the cycle at time 7 each
emit `(42, kPromoted)`. -/
theorem C2_second_cycle_emits_promoted_again :
    ((checkDatabase 3 2 10 7 (checkDatabase 3 2 10 6 promoState).1).2.map
        fun t => (t.trackNumber, t.flags))
      = [(42, Flag.kPromoted)] := by
  norm_num [promoState, tentativeMsg, checkDatabase, checkLoop, checkEntry, back,
    Track.Make, Track.setFlags, List.getLastD]

/-- C3: in a single sweep each entry contributes at most one report (the
report list is one `filterMap` pass over the start entries), and an entry
satisfying both the promotion and the eviction condition produces only
the dropping report — the drop report overwrites the promotion report —
and is removed (`none` survivor). -/
theorem C3_at_most_one_report_eviction_priority
    (hits : Nat) (dropLimit epoch now : ℚ) (db : Mapping)
    (entry : Nat × TrackMsgVector)
    (_hprom : (back entry.2).type = TrackType.kTentative ∧ hits ≤ entry.2.length)
    (hdrop : dropLimit < now - (epoch + (back entry.2).extractionTime)) :
    (checkLoop hits dropLimit epoch now db).2
        = db.filterMap (fun e => (checkEntry hits dropLimit epoch now e).2)
      ∧ checkEntry hits dropLimit epoch now entry
        = (none, some (Track.setFlags (Track.Make (back entry.2)) Flag.kDropping)) := by
  refine ⟨checkLoop_snd hits dropLimit epoch now db, ?_⟩
  have h1 := checkEntry_fst hits dropLimit epoch now entry
  rw [if_pos hdrop] at h1
  have h2 := checkEntry_snd_of_drop hits dropLimit epoch now entry hdrop
  have hpair : checkEntry hits dropLimit epoch now entry
      = ((checkEntry hits dropLimit epoch now entry).1,
         (checkEntry hits dropLimit epoch now entry).2) := rfl
  rw [hpair, h1, h2]

theorem C3_witness :
    ((back (promoState.trackDatabase.headI.2)).type = TrackType.kTentative
        ∧ 3 ≤ (promoState.trackDatabase.headI.2).length)
      ∧ (1 : ℚ) < 100 - (0 + (back (promoState.trackDatabase.headI.2)).extractionTime)
      ∧ checkEntry 3 1 0 100 promoState.trackDatabase.headI
        = (none, some (Track.setFlags (Track.Make (back (promoState.trackDatabase.headI.2)))
            Flag.kDropping)) := by
  have hp : (back (promoState.trackDatabase.headI.2)).type = TrackType.kTentative
      ∧ 3 ≤ (promoState.trackDatabase.headI.2).length := by
    constructor <;> norm_num [promoState, tentativeMsg, back, List.getLastD]
  have hd : (1 : ℚ) < 100 - (0 + (back (promoState.trackDatabase.headI.2)).extractionTime) := by
    norm_num [promoState, tentativeMsg, back, List.getLastD]
  exact ⟨hp, hd,
    (C3_at_most_one_report_eviction_priority 3 1 0 100 [] promoState.trackDatabase.headI
      hp hd).2⟩

/-- C4: `processInput` folds the message into the database via
`updateDatabase` exactly when its flags are `kNew` or `kCorrected`; for
any other flag value the state (database and offset) is unchanged, and
the return value is `true` in all cases. -/
theorem C4_processInput_filters_on_flags (s : TrackMaintainer) (msg : Track) (now : ℚ) :
    (processInput s msg now).2 = true
      ∧ ((msg.flags = Flag.kNew ∨ msg.flags = Flag.kCorrected) →
          (processInput s msg now).1 = updateDatabase s msg now)
      ∧ (¬ (msg.flags = Flag.kNew ∨ msg.flags = Flag.kCorrected) →
          (processInput s msg now).1 = s) := by
  unfold processInput
  split_ifs with h <;> simp [h]

theorem C4_witness :
    (processInput promoState predictedMsg 9).1 = promoState
      ∧ (processInput promoState (tentativeMsg 3) 9).2 = true :=
  ⟨(C4_processInput_filters_on_flags promoState predictedMsg 9).2.2
      (by simp [predictedMsg]),
   (C4_processInput_filters_on_flags promoState (tentativeMsg 3) 9).1⟩

/-- C5: after every accepted observation — whatever its track number —
the single global offset equals wall-clock `now` minus the observation's
extraction time. -/
theorem C5_epoch_from_latest_accepted_observation (s : TrackMaintainer) (msg : Track)
    (now : ℚ) (h : msg.flags = Flag.kNew ∨ msg.flags = Flag.kCorrected) :
    (processInput s msg now).1.epoch = now - msg.extractionTime := by
  unfold processInput
  rw [if_pos h]
  rfl

theorem C5_witness :
    ((tentativeMsg 3).flags = Flag.kNew ∨ (tentativeMsg 3).flags = Flag.kCorrected)
      ∧ (processInput dropState (tentativeMsg 3) 9).1.epoch
          = 9 - (tentativeMsg 3).extractionTime :=
  ⟨Or.inl rfl,
   C5_epoch_from_latest_accepted_observation dropState (tentativeMsg 3) 9 (Or.inl rfl)⟩

/-- C6: with `dropLimit = rotationDuration * missesBeforeDrop` computed
once per cycle, an entry whose offset-corrected age strictly exceeds it
gets exactly one report with its key — the dropping report built from its
latest message — and is removed, so a subsequent cycle emits no report
with that key; and an entry whose age does not exceed the limit is not
removed. -/
theorem C6_eviction_report_and_removal
    (hits misses : Nat) (rot now now2 : ℚ) (s : TrackMaintainer)
    (k : Nat) (tracks : TrackMsgVector)
    (hwf : WFdb s.trackDatabase) (hmem : (k, tracks) ∈ s.trackDatabase) :
    (rot * (misses : ℚ) < now - (s.epoch + (back tracks).extractionTime) →
        ((checkDatabase hits misses rot now s).2.filter (fun t => t.trackNumber == k)
            = [Track.setFlags (Track.Make (back tracks)) Flag.kDropping]
          ∧ k ∉ (checkDatabase hits misses rot now s).1.trackDatabase.map Prod.fst
          ∧ ∀ t ∈ (checkDatabase hits misses rot now2
                (checkDatabase hits misses rot now s).1).2, t.trackNumber ≠ k))
      ∧ (¬ rot * (misses : ℚ) < now - (s.epoch + (back tracks).extractionTime) →
          (k, tracks) ∈ (checkDatabase hits misses rot now s).1.trackDatabase) := by
  constructor
  · intro hd
    have hgone : k ∉ (checkDatabase hits misses rot now s).1.trackDatabase.map Prod.fst := by
      rw [checkDatabase_fst_trackDatabase]
      exact not_mem_keys_after_drop hits (rot * (misses : ℚ)) s.epoch now
        hwf.1.nodup hmem hd
    refine ⟨?_, hgone, ?_⟩
    · rw [checkDatabase_snd]
      exact checkLoop_filter_key hits (rot * (misses : ℚ)) s.epoch now
        s.trackDatabase hwf k tracks hmem hd
    · intro t ht hkt
      have hwf2 : WFdb (checkDatabase hits misses rot now s).1.trackDatabase :=
        checkDatabase_WFdb hits misses rot now s hwf
      rw [checkDatabase_snd] at ht
      have hmem2 := report_key_mem hits (rot * (misses : ℚ))
        (checkDatabase hits misses rot now s).1.epoch now2 hwf2.2 ht
      rw [hkt] at hmem2
      exact hgone hmem2
  · intro hnd
    rw [checkDatabase_fst_trackDatabase]
    exact mem_after_not_drop hits (rot * (misses : ℚ)) s.epoch now hmem hnd

theorem C6_witness :
    ((10 : ℚ) * ((2 : Nat) : ℚ)
        < 100 - (dropState.epoch + (back [confirmedMsg7]).extractionTime))
      ∧ (checkDatabase 3 2 10 100 dropState).2.filter (fun t => t.trackNumber == 7)
          = [Track.setFlags (Track.Make (back [confirmedMsg7])) Flag.kDropping]
      ∧ 7 ∉ (checkDatabase 3 2 10 100 dropState).1.trackDatabase.map Prod.fst := by
  have hwf : WFdb dropState.trackDatabase := by
    constructor
    · simp [dropState]
    · intro e he
      simp only [dropState, List.mem_singleton] at he
      subst he
      refine ⟨by simp, ?_⟩
      intro t ht
      simp only [List.mem_singleton] at ht
      subst ht
      rfl
  have hd : (10 : ℚ) * ((2 : Nat) : ℚ)
      < 100 - (dropState.epoch + (back [confirmedMsg7]).extractionTime) := by
    norm_num [dropState, back, confirmedMsg7, List.getLastD]
  have h := (C6_eviction_report_and_removal 3 2 10 100 200 dropState 7 [confirmedMsg7]
      hwf (by simp [dropState])).1 hd
  exact ⟨hd, h.1, h.2.1⟩

/-- C7: `reset()` empties the entity collection; afterwards nothing
carried over from before the call — the uncleared `epoch_` offset
included — influences behaviour: any operation sequence started from two
different pre-reset states produces the same reports and the same final
database. -/
theorem C7_reset_clears_observable_state (s₁ s₂ : TrackMaintainer) (ops : List Op) :
    (reset s₁).trackDatabase = []
      ∧ (run (reset s₁) ops).2 = (run (reset s₂) ops).2
      ∧ (run (reset s₁) ops).1.trackDatabase = (run (reset s₂) ops).1.trackDatabase := by
  refine ⟨rfl, ?_, ?_⟩
  · exact (run_epoch_independent ops (reset s₁) (reset s₂) rfl
      (fun h => absurd rfl h)).1
  · exact (run_epoch_independent ops (reset s₁) (reset s₂) rfl
      (fun h => absurd rfl h)).2

/-- C8: one sweep evaluates every entry present at the start exactly
once: the surviving database is one `filter` pass and the report list one
`filterMap` pass over the start entries (mid-sweep removals never skip or
revisit another entry), and so at most one report per start entry is
sent. -/
theorem C8_sweep_visits_each_start_entry_once (hits : Nat) (dl ep now : ℚ) (db : Mapping) :
    (checkLoop hits dl ep now db).1
        = db.filter (fun e => decide ¬ (dl < now - (ep + (back e.2).extractionTime)))
      ∧ (checkLoop hits dl ep now db).2
        = db.filterMap (fun e => (checkEntry hits dl ep now e).2)
      ∧ (checkLoop hits dl ep now db).2.length ≤ db.length := by
  refine ⟨checkLoop_fst hits dl ep now db, checkLoop_snd hits dl ep now db, ?_⟩
  rw [checkLoop_snd]
  exact List.length_filterMap_le _ _

/-- C9: `Mutex::operator==` compares object identity (`this == &rhs`):
it holds exactly when the two references denote the same underlying
object (same address), and `operator!=` is its exact negation. -/
theorem C9_mutex_equality_is_identity (a b : Mutex) :
    (Mutex.eqOp a b = true ↔ a.id = b.id)
      ∧ Mutex.neOp a b = !Mutex.eqOp a b := by
  constructor
  · simp [Mutex.eqOp]
  · simp [Mutex.eqOp, Mutex.neOp, decide_not]

/-- C10: a maintenance sweep never changes the offset and never mutates a
surviving entry: every entry of the post-sweep database is literally an
entry of the pre-sweep database (same key, same history, same stored
lifecycle states) — promotion touches only the outgoing report copy. -/
theorem C10_sweep_frames_survivors_and_epoch (hits misses : Nat) (rot now : ℚ)
    (s : TrackMaintainer) :
    (checkDatabase hits misses rot now s).1.epoch = s.epoch
      ∧ ∀ e ∈ (checkDatabase hits misses rot now s).1.trackDatabase,
          e ∈ s.trackDatabase := by
  refine ⟨rfl, ?_⟩
  intro e he
  rw [checkDatabase_fst_trackDatabase, checkLoop_fst] at he
  exact List.mem_of_mem_filter he

theorem C10_witness :
    (checkDatabase 3 2 10 6 promoState).1.epoch = promoState.epoch
      ∧ (42, [tentativeMsg 0, tentativeMsg 1, tentativeMsg 2]) ∈ promoState.trackDatabase :=
  ⟨(C10_sweep_frames_survivors_and_epoch 3 2 10 6 promoState).1,
   (C10_sweep_frames_survivors_and_epoch 3 2 10 6 promoState).2
      (42, [tentativeMsg 0, tentativeMsg 1, tentativeMsg 2])
      (by norm_num [promoState, tentativeMsg, checkDatabase, checkLoop, checkEntry, back,
        List.getLastD])⟩
